import Mathlib

/-!
# Verification of `UltraEfficientIntentBridge` (contracts/IntentBridge2.sol)

A shallow embedding of the intent-based settlement contract
`UltraEfficientIntentBridge` from `contracts/IntentBridge2.sol`,
together with theorems settling the specification's claims about it.

Modelling conventions:

* Addresses and `uint256` values are `Nat`.  Solidity 0.8 uses checked
  arithmetic (overflow reverts rather than wrapping), and no claim here
  distinguishes inputs near `2^256`, so unbounded `Nat` arithmetic is a
  faithful abstraction: every arithmetic expression the contract computes
  on the inputs the claims quantify over is overflow-free.
* The EIP-712 digests (`_hashIntent`, `_hashSolverCommit`, the cancel
  hash) are modelled by the free datatype `Digest`, whose constructors
  are injective: this is the standard idealization of a domain-separated
  collision-resistant hash (distinct type tags and distinct field tuples
  give distinct digests).
* `ECDSA.recover` is modelled by `recover` over idealized signatures: a
  signature records the signer and the digest it was produced over, and
  recovery yields the signer exactly on that digest and fails (recovers
  to nobody relevant) on every other digest.  This is the standard
  EUF-CMA idealization of ECDSA: a signature over a different digest
  recovers to an unpredictable address, never (except with negligible
  probability) to the expected one.
* Each state-changing entry point returns `Except Err (State × List Act)`:
  `.error e` is a revert (EVM semantics roll back every state write, so a
  reverted call leaves the pre-state), `.ok (s', tr)` is a successful call
  with post-state `s'` and `tr` the trace of storage writes, external
  calls and event emissions in the exact order the source performs them.
-/

/-- Failure modes, named as in the specification's error taxonomy and
mapped one-to-one onto the contract's revert strings:
`InvalidIntent` ← "zero user"/"zero token"/"zero amount"/"fee >= amount",
`IntentExpired` ← "expired", `SolverNotBonded` ← "Not staked",
`InvalidUserSignature` ← "Invalid user sig",
`InvalidSolverSignature` ← "Invalid solver sig",
`NonceMismatch` ← "nonce mismatch", `BadCancelSignature` ← "bad cancel sig",
`InsufficientBond` ← "invalid amount" (withdrawStake),
`InsufficientStake` ← "Insufficient stake" (stake),
`InsufficientAllowance`/`InsufficientBalance` ← the external ERC-20's
transferFrom failures. -/
inductive Err where
  | InvalidIntent
  | IntentExpired
  | SolverNotBonded
  | InvalidUserSignature
  | InvalidSolverSignature
  | NonceMismatch
  | BadCancelSignature
  | InsufficientBond
  | InsufficientStake
  | InsufficientAllowance
  | InsufficientBalance
deriving DecidableEq, Repr

/-- Domain-separated EIP-712 digests.  `intent` models `_hashIntent`
(typehash `Intent(address user,address token,uint256 amount,uint256 fee,
uint256 nonce,uint256 deadline)`), `solverCommit` models
`_hashSolverCommit` (typehash `SolverCommitment(bytes32 intentDigest)`),
`cancel` models the `_CANCEL_TYPEHASH` hash over `(user, nonce)`.
Constructor injectivity idealizes collision resistance. -/
inductive Digest where
  | intent (user token amount fee nonce deadline : Nat)
  | solverCommit (d : Digest)
  | cancel (user nonce : Nat)
deriving DecidableEq, Repr

/-- An idealized ECDSA signature: the signer's address and the digest the
signature was produced over. -/
structure Sig where
  signer : Nat
  signed : Digest
deriving DecidableEq, Repr

/-- `ECDSA.recover(digest, signature)` in the EUF-CMA idealization:
recovers the signer exactly when the digest is the one that was signed;
on any other digest the recovered address matches nothing (modelled as
`none`). -/
def recover (d : Digest) (sig : Sig) : Option Nat :=
  if sig.signed = d then some sig.signer else none

/-- Point update of a one-key storage mapping. -/
def upd (f : Nat → Nat) (a v : Nat) : Nat → Nat :=
  fun x => if x = a then v else f x

/-- Point update of a two-key storage mapping. -/
def upd2 (f : Nat → Nat → Nat) (a b v : Nat) : Nat → Nat → Nat :=
  fun x y => if x = a ∧ y = b then v else f x y

/-- Contract storage plus the external ERC-20 ledger the contract calls
into.  `nonces` and `solverStakes` are the two storage mappings of
`UltraEfficientIntentBridge`; `tokenBal t h` and `allowance t o` are the
external token `t`'s balance of holder `h` and the allowance owner `o`
has granted the bridge on token `t`. -/
structure State where
  nonces : Nat → Nat
  solverStakes : Nat → Nat
  tokenBal : Nat → Nat → Nat
  allowance : Nat → Nat → Nat

/-- `uint256 public constant MINIMUM_STAKE = 1 ether;` (in wei). -/
def MINIMUM_STAKE : Nat := 1000000000000000000

/-- One primitive effect of a call, recorded in source order: storage
writes (`setStake`, `setNonce`), external calls (`sendValue`,
`tokenTransferFrom`) and event emissions. -/
inductive Act where
  | setStake (solver newBal : Nat)
  | sendValue (dst amount : Nat)
  | setNonce (user newNonce : Nat)
  | tokenTransferFrom (token src dst amount : Nat)
  | emitStakeAdded (solver amount total : Nat)
  | emitStakeWithdrawn (solver amount total : Nat)
  | emitIntentFulfilled (user solver token amount fee : Nat)
deriving DecidableEq, Repr

/-- Modelled from the spec: the external Asset Ledger collaborator
(`IERC20.safeTransferFrom`, the ERC-20 token contract itself is not part
of this repository).  `transferFrom(owner → to, amt)` called by the
bridge fails with `InsufficientAllowance`/`InsufficientBalance` and
otherwise debits the owner, credits the recipient, and consumes
allowance. -/
def transferFrom (s : State) (token owner dst amt : Nat) : Except Err State :=
  if s.allowance token owner < amt then .error .InsufficientAllowance
  else if s.tokenBal token owner < amt then .error .InsufficientBalance
  else
    .ok { s with
      allowance := upd2 s.allowance token owner (s.allowance token owner - amt)
      tokenBal :=
        upd2 (upd2 s.tokenBal token owner (s.tokenBal token owner - amt)) token dst
          (upd2 s.tokenBal token owner (s.tokenBal token owner - amt) token dst + amt) }

/-- `stake()` — `IntentBridge2.sol` lines 44-48:
`require(msg.value >= MINIMUM_STAKE, "Insufficient stake");
 solverStakes[msg.sender] += msg.value;
 emit StakeAdded(msg.sender, msg.value, solverStakes[msg.sender]);` -/
def stake (s : State) (caller value : Nat) : Except Err (State × List Act) :=
  if value < MINIMUM_STAKE then .error .InsufficientStake
  else
    .ok ({ s with
             solverStakes := upd s.solverStakes caller (s.solverStakes caller + value) },
         [Act.setStake caller (s.solverStakes caller + value),
          Act.emitStakeAdded caller value (s.solverStakes caller + value)])

/-- `withdrawStake(uint256 amount)` — `IntentBridge2.sol` lines 50-59:
`uint256 bal = solverStakes[msg.sender];
 require(amount > 0 && amount <= bal, "invalid amount");
 solverStakes[msg.sender] = bal - amount;
 Address.sendValue(payable(msg.sender), amount);
 emit StakeWithdrawn(msg.sender, amount, solverStakes[msg.sender]);`
The balance write precedes the external value transfer, and the trace
records that order. -/
def withdrawStake (s : State) (caller amount : Nat) :
    Except Err (State × List Act) :=
  if amount = 0 ∨ s.solverStakes caller < amount then .error .InsufficientBond
  else
    .ok ({ s with
             solverStakes := upd s.solverStakes caller (s.solverStakes caller - amount) },
         [Act.setStake caller (s.solverStakes caller - amount),
          Act.sendValue caller amount,
          Act.emitStakeWithdrawn caller amount (s.solverStakes caller - amount)])

/-- `fulfillIntent(user, token, amount, fee, deadline, userSignature,
solverSignature)` — `IntentBridge2.sol` lines 92-139, translated
require-by-require; `now` is `block.timestamp`, `caller` is `msg.sender`.
Checks: zero user / zero token / zero amount / fee ≥ amount (each
`InvalidIntent`), `block.timestamp <= deadline` (`IntentExpired`),
`solverStakes[msg.sender] >= MINIMUM_STAKE` (`SolverNotBonded`), user
signature over the intent digest built with the stored nonce
(`InvalidUserSignature`), solver signature over the commitment digest
(`InvalidSolverSignature`).  Effects: `nonces[user] = nonce + 1`, then
`safeTransferFrom(user, msg.sender, amount + fee)` (an error there
reverts the whole call), then `emit IntentFulfilled`. -/
def fulfillIntent (s : State) (now caller user token amount fee deadline : Nat)
    (userSignature solverSignature : Sig) : Except Err (State × List Act) :=
  if user = 0 then .error .InvalidIntent
  else if token = 0 then .error .InvalidIntent
  else if amount = 0 then .error .InvalidIntent
  else if amount ≤ fee then .error .InvalidIntent
  else if deadline < now then .error .IntentExpired
  else if s.solverStakes caller < MINIMUM_STAKE then .error .SolverNotBonded
  else if recover (Digest.intent user token amount fee (s.nonces user) deadline)
      userSignature ≠ some user then
    .error .InvalidUserSignature
  else if recover
      (Digest.solverCommit (Digest.intent user token amount fee (s.nonces user) deadline))
      solverSignature ≠ some caller then
    .error .InvalidSolverSignature
  else
    Except.map
      (fun s2 =>
        (s2, [Act.setNonce user (s.nonces user + 1),
              Act.tokenTransferFrom token user caller (amount + fee),
              Act.emitIntentFulfilled user caller token amount fee]))
      (transferFrom { s with nonces := upd s.nonces user (s.nonces user + 1) }
        token user caller (amount + fee))

/-- `cancelIntent(uint256 expectedNonce, bytes sig)` —
`IntentBridge2.sol` lines 142-149: `require(nonces[msg.sender] ==
expectedNonce, "nonce mismatch")`, then the EIP-712 cancel hash over
`(msg.sender, expectedNonce)` must recover to `msg.sender`, then
`nonces[msg.sender] = expectedNonce + 1`.  No transfer of any kind. -/
def cancelIntent (s : State) (caller expectedNonce : Nat) (sig : Sig) :
    Except Err (State × List Act) :=
  if s.nonces caller ≠ expectedNonce then .error .NonceMismatch
  else if recover (Digest.cancel caller expectedNonce) sig ≠ some caller then
    .error .BadCancelSignature
  else
    .ok ({ s with nonces := upd s.nonces caller (expectedNonce + 1) },
         [Act.setNonce caller (expectedNonce + 1)])

/-- The contract's external state-changing entry points, as one closed
alphabet of operations. -/
inductive Op where
  | stakeOp (caller value : Nat)
  | withdrawOp (caller amount : Nat)
  | fulfillOp (now caller user token amount fee deadline : Nat)
      (userSignature solverSignature : Sig)
  | cancelOp (caller expectedNonce : Nat) (sig : Sig)

/-- Dispatch one entry point. -/
def exec (s : State) : Op → Except Err (State × List Act)
  | .stakeOp c v => stake s c v
  | .withdrawOp c a => withdrawStake s c a
  | .fulfillOp now c u t a f d us ss => fulfillIntent s now c u t a f d us ss
  | .cancelOp c n sig => cancelIntent s c n sig

/-- The state after a call, with EVM revert semantics: a reverted call
leaves the pre-state. -/
def execState (s : State) (op : Op) : State :=
  match exec s op with
  | .ok (s', _) => s'
  | .error _ => s

/-! ## Characterization lemmas -/

/-- The failure mode of a call, if any (`none` = the call succeeded). -/
def errOf {α : Type} : Except Err α → Option Err
  | .error e => some e
  | .ok _ => none

@[simp] theorem errOf_error {α : Type} (e : Err) :
    errOf (α := α) (.error e) = some e := rfl

@[simp] theorem errOf_ok {α : Type} (v : α) :
    errOf (α := α) (.ok v) = none := rfl

@[simp] theorem errOf_map {α β : Type} (f : α → β) (x : Except Err α) :
    errOf (Except.map f x) = errOf x := by
  cases x <;> rfl

@[simp] theorem upd_same (f : Nat → Nat) (a v : Nat) : upd f a v a = v := by
  simp [upd]

@[simp] theorem upd_other (f : Nat → Nat) (a v x : Nat) (h : x ≠ a) :
    upd f a v x = f x := by
  simp [upd, h]

theorem transferFrom_ok_iff (s : State) (token owner dst amt : Nat) (s' : State) :
    transferFrom s token owner dst amt = .ok s' ↔
      amt ≤ s.allowance token owner ∧ amt ≤ s.tokenBal token owner ∧
      s' = { s with
        allowance := upd2 s.allowance token owner (s.allowance token owner - amt)
        tokenBal :=
          upd2 (upd2 s.tokenBal token owner (s.tokenBal token owner - amt)) token dst
            (upd2 s.tokenBal token owner (s.tokenBal token owner - amt) token dst + amt) } := by
  unfold transferFrom
  split_ifs with h1 h2
  · constructor
    · intro h; simp at h
    · rintro ⟨ha, -, -⟩; omega
  · constructor
    · intro h; simp at h
    · rintro ⟨-, hb, -⟩; omega
  · constructor
    · intro h
      injection h with h
      exact ⟨by omega, by omega, h.symm⟩
    · rintro ⟨-, -, rfl⟩; rfl

theorem transferFrom_error_iff (s : State) (token owner dst amt : Nat) (e : Err) :
    transferFrom s token owner dst amt = .error e ↔
      (e = .InsufficientAllowance ∧ s.allowance token owner < amt) ∨
      (e = .InsufficientBalance ∧ amt ≤ s.allowance token owner ∧
        s.tokenBal token owner < amt) := by
  unfold transferFrom
  split_ifs with h1 h2
  · constructor
    · intro h; injection h with h; exact .inl ⟨h.symm, h1⟩
    · rintro (⟨rfl, -⟩ | ⟨rfl, ha, -⟩)
      · rfl
      · omega
  · constructor
    · intro h; injection h with h; exact .inr ⟨h.symm, by omega, h2⟩
    · rintro (⟨rfl, ha⟩ | ⟨rfl, -, -⟩)
      · omega
      · rfl
  · constructor
    · intro h; simp at h
    · rintro (⟨rfl, ha⟩ | ⟨rfl, -, hb⟩) <;> omega

/-- Success characterization of `fulfillIntent`: the call returns `.ok`
exactly when every `require` passes and the token transfer goes through,
and then the post-state and the trace are exactly as below. -/
theorem fulfillIntent_ok_iff (s : State) (now caller user token amount fee deadline : Nat)
    (us ss : Sig) (s' : State) (tr : List Act) :
    fulfillIntent s now caller user token amount fee deadline us ss = .ok (s', tr) ↔
      user ≠ 0 ∧ token ≠ 0 ∧ amount ≠ 0 ∧ fee < amount ∧ now ≤ deadline ∧
      MINIMUM_STAKE ≤ s.solverStakes caller ∧
      recover (Digest.intent user token amount fee (s.nonces user) deadline) us = some user ∧
      recover (Digest.solverCommit
        (Digest.intent user token amount fee (s.nonces user) deadline)) ss = some caller ∧
      amount + fee ≤ s.allowance token user ∧ amount + fee ≤ s.tokenBal token user ∧
      s' = { nonces := upd s.nonces user (s.nonces user + 1)
             solverStakes := s.solverStakes
             tokenBal :=
               upd2 (upd2 s.tokenBal token user (s.tokenBal token user - (amount + fee)))
                 token caller
                 (upd2 s.tokenBal token user (s.tokenBal token user - (amount + fee))
                   token caller + (amount + fee))
             allowance :=
               upd2 s.allowance token user (s.allowance token user - (amount + fee)) } ∧
      tr = [Act.setNonce user (s.nonces user + 1),
            Act.tokenTransferFrom token user caller (amount + fee),
            Act.emitIntentFulfilled user caller token amount fee] := by
  unfold fulfillIntent
  split_ifs with h1 h2 h3 h4 h5 h6 h7 h8
  · constructor
    · intro h; simp at h
    · rintro ⟨hu, -⟩; exact hu h1
  · constructor
    · intro h; simp at h
    · rintro ⟨-, ht, -⟩; exact ht h2
  · constructor
    · intro h; simp at h
    · rintro ⟨-, -, ha, -⟩; exact ha h3
  · constructor
    · intro h; simp at h
    · rintro ⟨-, -, -, hf, -⟩; omega
  · constructor
    · intro h; simp at h
    · rintro ⟨-, -, -, -, hd, -⟩; omega
  · constructor
    · intro h; simp at h
    · rintro ⟨-, -, -, -, -, hs, -⟩; omega
  · constructor
    · intro h; simp at h
    · rintro ⟨-, -, -, -, -, -, hu7, -⟩; exact h7 hu7
  · constructor
    · intro h; simp at h
    · rintro ⟨-, -, -, -, -, -, -, hs8, -⟩; exact h8 hs8
  · cases htf : transferFrom { s with nonces := upd s.nonces user (s.nonces user + 1) }
        token user caller (amount + fee) with
    | error e =>
        rw [transferFrom_error_iff] at htf
        simp only [Except.map, htf]
        constructor
        · intro h; simp at h
        · rintro ⟨-, -, -, -, -, -, -, -, hal, hbal, -⟩
          rcases htf with ⟨-, h⟩ | ⟨-, -, h⟩ <;> simp at h <;> omega
    | ok s2 =>
        rw [transferFrom_ok_iff] at htf
        simp only at htf
        simp only [Except.map]
        constructor
        · intro h
          injection h with h
          rw [Prod.mk.injEq] at h
          refine ⟨h1, h2, h3, by omega, by omega, by omega, not_not.mp h7,
            not_not.mp h8, htf.1, htf.2.1, ?_, h.2.symm⟩
          rw [← h.1, htf.2.2]
        · rintro ⟨-, -, -, -, -, -, -, -, -, -, rfl, rfl⟩
          rw [htf.2.2]

theorem errOf_transferFrom_cases (s : State) (token owner dst amt : Nat) :
    errOf (transferFrom s token owner dst amt) = none ∨
    errOf (transferFrom s token owner dst amt) = some .InsufficientAllowance ∨
    errOf (transferFrom s token owner dst amt) = some .InsufficientBalance := by
  unfold transferFrom
  split_ifs <;> simp

/-- Master failure-mode equation for `fulfillIntent`: the failure mode is
computed by the source's `require` chain in source order, with the
external token transfer last. -/
theorem fulfillIntent_errOf_eq (s : State)
    (now caller user token amount fee deadline : Nat) (us ss : Sig) :
    errOf (fulfillIntent s now caller user token amount fee deadline us ss) =
      if user = 0 then some .InvalidIntent
      else if token = 0 then some .InvalidIntent
      else if amount = 0 then some .InvalidIntent
      else if amount ≤ fee then some .InvalidIntent
      else if deadline < now then some .IntentExpired
      else if s.solverStakes caller < MINIMUM_STAKE then some .SolverNotBonded
      else if recover (Digest.intent user token amount fee (s.nonces user) deadline)
          us ≠ some user then some .InvalidUserSignature
      else if recover (Digest.solverCommit
          (Digest.intent user token amount fee (s.nonces user) deadline))
          ss ≠ some caller then some .InvalidSolverSignature
      else errOf (transferFrom { s with nonces := upd s.nonces user (s.nonces user + 1) }
        token user caller (amount + fee)) := by
  unfold fulfillIntent
  split_ifs <;> simp

/-- Check 1 of `fulfillIntent`: `InvalidIntent` (the four parameter
`require`s) fires exactly on a malformed intent, before anything else is
looked at. -/
theorem fulfillIntent_invalidIntent_iff (s : State)
    (now caller user token amount fee deadline : Nat) (us ss : Sig) :
    errOf (fulfillIntent s now caller user token amount fee deadline us ss) =
        some .InvalidIntent ↔
      user = 0 ∨ token = 0 ∨ amount = 0 ∨ amount ≤ fee := by
  rw [fulfillIntent_errOf_eq]
  split_ifs with h1 h2 h3 h4 h5 h6 h7 h8
  · simp [h1]
  · simp [h2]
  · simp [h3]
  · simp [h4]
  · simp [h1, h2, h3, h4]
  · simp [h1, h2, h3, h4]
  · simp [h1, h2, h3, h4]
  · simp [h1, h2, h3, h4]
  · rcases errOf_transferFrom_cases
        { s with nonces := upd s.nonces user (s.nonces user + 1) }
        token user caller (amount + fee) with h | h | h <;>
      rw [h] <;> simp [h1, h2, h3, h4]

/-- Check 2 of `fulfillIntent`: `IntentExpired` fires exactly when the
parameters are well-formed but `deadline < block.timestamp`, for every
pair of signatures. -/
theorem fulfillIntent_expired_iff (s : State)
    (now caller user token amount fee deadline : Nat) (us ss : Sig) :
    errOf (fulfillIntent s now caller user token amount fee deadline us ss) =
        some .IntentExpired ↔
      user ≠ 0 ∧ token ≠ 0 ∧ amount ≠ 0 ∧ fee < amount ∧ deadline < now := by
  rw [fulfillIntent_errOf_eq]
  split_ifs with h1 h2 h3 h4 h5 h6 h7 h8
  · simp [h1]
  · simp [h2]
  · simp [h3]
  · simp; omega
  · simp [h1, h2, h3, h5]; omega
  · simp [h5]
  · simp [h5]
  · simp [h5]
  · rcases errOf_transferFrom_cases
        { s with nonces := upd s.nonces user (s.nonces user + 1) }
        token user caller (amount + fee) with h | h | h <;>
      rw [h] <;> simp [h5]

/-- Check 3 of `fulfillIntent`: `SolverNotBonded` fires exactly when the
intent is well-formed and unexpired but the caller's stake is below
`MINIMUM_STAKE`, for every pair of signatures. -/
theorem fulfillIntent_notBonded_iff (s : State)
    (now caller user token amount fee deadline : Nat) (us ss : Sig) :
    errOf (fulfillIntent s now caller user token amount fee deadline us ss) =
        some .SolverNotBonded ↔
      user ≠ 0 ∧ token ≠ 0 ∧ amount ≠ 0 ∧ fee < amount ∧ now ≤ deadline ∧
      s.solverStakes caller < MINIMUM_STAKE := by
  rw [fulfillIntent_errOf_eq]
  split_ifs with h1 h2 h3 h4 h5 h6 h7 h8
  · simp [h1]
  · simp [h2]
  · simp [h3]
  · simp; omega
  · simp; omega
  · simp [h1, h2, h3, h6]; omega
  · simp [h6]
  · simp [h6]
  · rcases errOf_transferFrom_cases
        { s with nonces := upd s.nonces user (s.nonces user + 1) }
        token user caller (amount + fee) with h | h | h <;>
      rw [h] <;> simp [h6]

/-- Check 4 of `fulfillIntent`: `InvalidUserSignature` fires exactly when
checks 1-3 pass but the user signature does not recover to `user` over
the intent digest built with the user's current stored nonce. -/
theorem fulfillIntent_invalidUserSig_iff (s : State)
    (now caller user token amount fee deadline : Nat) (us ss : Sig) :
    errOf (fulfillIntent s now caller user token amount fee deadline us ss) =
        some .InvalidUserSignature ↔
      user ≠ 0 ∧ token ≠ 0 ∧ amount ≠ 0 ∧ fee < amount ∧ now ≤ deadline ∧
      MINIMUM_STAKE ≤ s.solverStakes caller ∧
      recover (Digest.intent user token amount fee (s.nonces user) deadline) us ≠
        some user := by
  rw [fulfillIntent_errOf_eq]
  split_ifs with h1 h2 h3 h4 h5 h6 h7 h8
  · simp [h1]
  · simp [h2]
  · simp [h3]
  · simp; omega
  · simp; omega
  · simp; omega
  · simp [h1, h2, h3, h7]; omega
  · rw [not_not] at h7; simp [h7]
  · rw [not_not] at h7
    rcases errOf_transferFrom_cases
        { s with nonces := upd s.nonces user (s.nonces user + 1) }
        token user caller (amount + fee) with h | h | h <;>
      rw [h] <;> simp [h7]

/-- Check 5 of `fulfillIntent`: `InvalidSolverSignature` fires exactly
when checks 1-4 pass but the solver signature does not recover to the
caller over the commitment digest derived from the intent digest. -/
theorem fulfillIntent_invalidSolverSig_iff (s : State)
    (now caller user token amount fee deadline : Nat) (us ss : Sig) :
    errOf (fulfillIntent s now caller user token amount fee deadline us ss) =
        some .InvalidSolverSignature ↔
      user ≠ 0 ∧ token ≠ 0 ∧ amount ≠ 0 ∧ fee < amount ∧ now ≤ deadline ∧
      MINIMUM_STAKE ≤ s.solverStakes caller ∧
      recover (Digest.intent user token amount fee (s.nonces user) deadline) us =
        some user ∧
      recover (Digest.solverCommit
        (Digest.intent user token amount fee (s.nonces user) deadline)) ss ≠
        some caller := by
  rw [fulfillIntent_errOf_eq]
  split_ifs with h1 h2 h3 h4 h5 h6 h7 h8
  · simp [h1]
  · simp [h2]
  · simp [h3]
  · simp; omega
  · simp; omega
  · simp; omega
  · simp [h7]
  · rw [not_not] at h7
    simp [h1, h2, h3, h7, h8]
    omega
  · rw [not_not] at h7
    rw [not_not] at h8
    rcases errOf_transferFrom_cases
        { s with nonces := upd s.nonces user (s.nonces user + 1) }
        token user caller (amount + fee) with h | h | h <;>
      rw [h] <;> simp [h8]

/-- Success characterization of `cancelIntent`: it succeeds exactly when
the expected nonce matches the caller's stored nonce and the cancel
signature recovers to the caller, and then the only effect is bumping
the caller's nonce (no transfer of any kind in the trace). -/
theorem cancelIntent_ok_iff (s : State) (caller expectedNonce : Nat) (sig : Sig)
    (s' : State) (tr : List Act) :
    cancelIntent s caller expectedNonce sig = .ok (s', tr) ↔
      s.nonces caller = expectedNonce ∧
      recover (Digest.cancel caller expectedNonce) sig = some caller ∧
      s' = { s with nonces := upd s.nonces caller (expectedNonce + 1) } ∧
      tr = [Act.setNonce caller (expectedNonce + 1)] := by
  unfold cancelIntent
  split_ifs with h1 h2
  · constructor
    · intro h; simp at h
    · rintro ⟨hn, -⟩; exact h1 hn
  · constructor
    · intro h; simp at h
    · rintro ⟨-, hr, -⟩; exact h2 hr
  · rw [not_not] at h1 h2
    constructor
    · intro h
      injection h with h
      rw [Prod.mk.injEq] at h
      exact ⟨h1, h2, h.1.symm, h.2.symm⟩
    · rintro ⟨-, -, rfl, rfl⟩; rfl

/-- Failure characterization of `cancelIntent`: `NonceMismatch` on a
stale or future expected nonce (checked first), otherwise
`BadCancelSignature` when the signature does not recover to the caller
over the cancel digest `(caller, expectedNonce)`. -/
theorem cancelIntent_error_iff (s : State) (caller expectedNonce : Nat) (sig : Sig)
    (e : Err) :
    cancelIntent s caller expectedNonce sig = .error e ↔
      (e = .NonceMismatch ∧ s.nonces caller ≠ expectedNonce) ∨
      (e = .BadCancelSignature ∧ s.nonces caller = expectedNonce ∧
        recover (Digest.cancel caller expectedNonce) sig ≠ some caller) := by
  unfold cancelIntent
  split_ifs with h1 h2
  · constructor
    · intro h; injection h with h; exact .inl ⟨h.symm, h1⟩
    · rintro (⟨rfl, -⟩ | ⟨rfl, hn, -⟩)
      · rfl
      · exact absurd hn h1
  · rw [not_not] at h1
    constructor
    · intro h; injection h with h; exact .inr ⟨h.symm, h1, h2⟩
    · rintro (⟨rfl, hn⟩ | ⟨rfl, -, -⟩)
      · exact absurd h1 hn
      · rfl
  · constructor
    · intro h; simp at h
    · rw [not_not] at h1 h2
      rintro (⟨-, hn⟩ | ⟨-, -, hr⟩)
      · exact absurd h1 hn
      · exact absurd h2 hr

/-- Characterization of `stake`: the deposit is accepted exactly when
`msg.value ≥ MINIMUM_STAKE`, and then it adds the value to the caller's
stake and emits `StakeAdded` with the new total. -/
theorem stake_ok_iff (s : State) (caller value : Nat) (s' : State) (tr : List Act) :
    stake s caller value = .ok (s', tr) ↔
      MINIMUM_STAKE ≤ value ∧
      s' = { s with
        solverStakes := upd s.solverStakes caller (s.solverStakes caller + value) } ∧
      tr = [Act.setStake caller (s.solverStakes caller + value),
            Act.emitStakeAdded caller value (s.solverStakes caller + value)] := by
  unfold stake
  split_ifs with h1
  · constructor
    · intro h; simp at h
    · rintro ⟨hv, -⟩; omega
  · constructor
    · intro h
      injection h with h
      rw [Prod.mk.injEq] at h
      exact ⟨by omega, h.1.symm, h.2.symm⟩
    · rintro ⟨-, rfl, rfl⟩; rfl

/-- Failure characterization of `stake`: it reverts (with
"Insufficient stake") exactly when the deposited value is below
`MINIMUM_STAKE`. -/
theorem stake_error_iff (s : State) (caller value : Nat) (e : Err) :
    stake s caller value = .error e ↔
      e = .InsufficientStake ∧ value < MINIMUM_STAKE := by
  unfold stake
  split_ifs with h1
  · constructor
    · intro h; injection h with h; exact ⟨h.symm, h1⟩
    · rintro ⟨rfl, -⟩; rfl
  · constructor
    · intro h; simp at h
    · rintro ⟨-, hv⟩; omega

/-- Success characterization of `withdrawStake`: it succeeds exactly when
`0 < amount ≤ balance`, and then it decrements the caller's stake first
and sends the value second (trace order). -/
theorem withdrawStake_ok_iff (s : State) (caller amount : Nat) (s' : State)
    (tr : List Act) :
    withdrawStake s caller amount = .ok (s', tr) ↔
      amount ≠ 0 ∧ amount ≤ s.solverStakes caller ∧
      s' = { s with
        solverStakes := upd s.solverStakes caller (s.solverStakes caller - amount) } ∧
      tr = [Act.setStake caller (s.solverStakes caller - amount),
            Act.sendValue caller amount,
            Act.emitStakeWithdrawn caller amount (s.solverStakes caller - amount)] := by
  unfold withdrawStake
  split_ifs with h1
  · constructor
    · intro h; simp at h
    · rintro ⟨ha, hb, -⟩; rcases h1 with h1 | h1
      · exact ha h1
      · omega
  · constructor
    · intro h
      injection h with h
      rw [Prod.mk.injEq] at h
      push_neg at h1
      exact ⟨h1.1, by omega, h.1.symm, h.2.symm⟩
    · rintro ⟨-, -, rfl, rfl⟩; rfl

/-- Failure characterization of `withdrawStake`: it reverts with
`InsufficientBond` ("invalid amount") exactly when `amount == 0` or
`amount` exceeds the caller's stake. -/
theorem withdrawStake_error_iff (s : State) (caller amount : Nat) (e : Err) :
    withdrawStake s caller amount = .error e ↔
      e = .InsufficientBond ∧
      (amount = 0 ∨ s.solverStakes caller < amount) := by
  unfold withdrawStake
  split_ifs with h1
  · constructor
    · intro h; injection h with h; exact ⟨h.symm, h1⟩
    · rintro ⟨rfl, -⟩; rfl
  · constructor
    · intro h; simp at h
    · rintro ⟨-, hv⟩; exact h1 hv

/-- A reverted call leaves the pre-state (EVM rollback semantics). -/
theorem execState_of_error {s : State} {op : Op} {e : Err}
    (h : exec s op = .error e) : execState s op = s := by
  unfold execState; rw [h]

/-- A successful call moves to the returned post-state. -/
theorem execState_of_ok {s s' : State} {op : Op} {tr : List Act}
    (h : exec s op = .ok (s', tr)) : execState s op = s' := by
  unfold execState; rw [h]

/-- Per-user nonce monotonicity across every entry point of the
contract: no call, successful or reverted, ever decreases any user's
nonce counter. -/
theorem nonces_mono (s : State) (op : Op) (v : Nat) :
    s.nonces v ≤ (execState s op).nonces v := by
  cases hop : exec s op with
  | error e => rw [execState_of_error hop]
  | ok p =>
      obtain ⟨s', tr⟩ := p
      rw [execState_of_ok hop]
      cases op with
      | stakeOp c val =>
          rw [show exec s (.stakeOp c val) = stake s c val from rfl] at hop
          rw [stake_ok_iff] at hop
          rw [hop.2.1]
      | withdrawOp c a =>
          rw [show exec s (.withdrawOp c a) = withdrawStake s c a from rfl] at hop
          rw [withdrawStake_ok_iff] at hop
          rw [hop.2.2.1]
      | fulfillOp now c u t a f d us ss =>
          rw [show exec s (.fulfillOp now c u t a f d us ss) =
            fulfillIntent s now c u t a f d us ss from rfl] at hop
          rw [fulfillIntent_ok_iff] at hop
          rw [hop.2.2.2.2.2.2.2.2.2.2.1]
          by_cases hv : v = u
          · subst hv; simp [upd]
          · simp [upd, hv]
      | cancelOp c n sig =>
          rw [show exec s (.cancelOp c n sig) = cancelIntent s c n sig from rfl] at hop
          rw [cancelIntent_ok_iff] at hop
          rw [hop.2.2.1]
          by_cases hv : v = c
          · subst hv; simp [upd]; omega
          · simp [upd, hv]

/-- Nonce monotonicity extended to any sequence of calls. -/
theorem nonces_mono_foldl (ops : List Op) (s : State) (v : Nat) :
    s.nonces v ≤ (ops.foldl execState s).nonces v := by
  induction ops generalizing s with
  | nil => simp
  | cons op rest ih =>
      calc s.nonces v ≤ (execState s op).nonces v := nonces_mono s op v
        _ ≤ (rest.foldl execState (execState s op)).nonces v := ih _
        _ = ((op :: rest).foldl execState s).nonces v := by rw [List.foldl_cons]

theorem recover_eq_some_iff (d : Digest) (sig : Sig) (a : Nat) :
    recover d sig = some a ↔ sig.signed = d ∧ sig.signer = a := by
  unfold recover
  split_ifs with h
  · simp [h]
  · simp [h]

/-! ## Concrete demonstration fixtures

A bonded solver at address 3, a user at address 1, a token at address 2;
the user holds 1000 of the token and granted the bridge a 1000 allowance;
the signatures authorize `{user 1, token 2, amount 100, fee 1, nonce 0,
deadline 1000}` and its solver commitment; `block.timestamp = 500`. -/

def demoState : State :=
  { nonces := fun _ => 0
    solverStakes := fun x => if x = 3 then MINIMUM_STAKE else 0
    tokenBal := fun _ _ => 1000
    allowance := fun _ _ => 1000 }

def demoUserSig : Sig := ⟨1, .intent 1 2 100 1 0 1000⟩

def demoSolverSig : Sig := ⟨3, .solverCommit (.intent 1 2 100 1 0 1000)⟩

def demoCancelSig : Sig := ⟨1, .cancel 1 0⟩

def demoOp : Op := .fulfillOp 500 3 1 2 100 1 1000 demoUserSig demoSolverSig

/-! ## Claims -/

/-- Claim C1, counterexample to the claimed failure mode: at a concrete
fully-valid intent, the first `fulfillIntent` call succeeds, and the
identical second call does fail — but with `InvalidUserSignature`
("Invalid user sig"), not with `NonceMismatch`: `fulfillIntent` has no
nonce-comparison `require`; replay dies at the user-signature check
because the digest is recomputed with the advanced stored nonce. -/
theorem fulfill_replay_not_nonceMismatch_cex :
    errOf (fulfillIntent demoState 500 3 1 2 100 1 1000 demoUserSig demoSolverSig)
      = none ∧
    errOf (fulfillIntent (execState demoState demoOp) 500 3 1 2 100 1 1000
      demoUserSig demoSolverSig) = some .InvalidUserSignature ∧
    some Err.InvalidUserSignature ≠ some Err.NonceMismatch := by
  refine ⟨by decide, by decide, by decide⟩

/-- Claim C1 (amended): for every intent settled successfully, a second
call to `fulfillIntent` with identical arguments never succeeds again;
it fails with `InvalidUserSignature` (not `NonceMismatch`): the stored
nonce advanced, so the digest recomputed with the new nonce no longer
matches the replayed user signature. -/
theorem fulfill_replay_fails (s : State)
    (now caller user token amount fee deadline : Nat) (us ss : Sig)
    (s' : State) (tr : List Act)
    (h : fulfillIntent s now caller user token amount fee deadline us ss =
      .ok (s', tr)) :
    errOf (fulfillIntent s' now caller user token amount fee deadline us ss) =
      some .InvalidUserSignature := by
  rw [fulfillIntent_ok_iff] at h
  obtain ⟨hu, ht, ha, hf, hd, hb, hus, hss, hal, hbal, hs', htr⟩ := h
  subst hs'
  rw [fulfillIntent_invalidUserSig_iff]
  have hn : (upd s.nonces user (s.nonces user + 1)) user = s.nonces user + 1 := by
    simp [upd]
  refine ⟨hu, ht, ha, hf, hd, hb, ?_⟩
  obtain ⟨hsigned, hsigner⟩ := (recover_eq_some_iff _ _ _).mp hus
  rw [show ({ nonces := upd s.nonces user (s.nonces user + 1),
              solverStakes := s.solverStakes,
              tokenBal := _, allowance := _ } : State).nonces user
      = s.nonces user + 1 from hn]
  intro hcon
  rw [recover_eq_some_iff, hsigned] at hcon
  have := hcon.1
  rw [Digest.intent.injEq] at this
  omega

/-- Witness for `fulfill_replay_fails` at the concrete demo intent. -/
theorem fulfill_replay_fails_witness :
    errOf (fulfillIntent (execState demoState demoOp) 500 3 1 2 100 1 1000
      demoUserSig demoSolverSig) = some .InvalidUserSignature := by
  have h : fulfillIntent demoState 500 3 1 2 100 1 1000 demoUserSig demoSolverSig =
      .ok (execState demoState demoOp,
           [Act.setNonce 1 1, Act.tokenTransferFrom 2 1 3 101,
            Act.emitIntentFulfilled 1 3 2 100 1]) := rfl
  exact fulfill_replay_fails demoState 500 3 1 2 100 1 1000 demoUserSig demoSolverSig
    _ _ h

/-- Claim C2: `fulfillIntent` checks its preconditions in source order,
each yielding a distinct failure mode — (1) parameter validity
(`InvalidIntent`), (2) deadline (`IntentExpired`), (3) caller's bond
(`SolverNotBonded`), (4) user signature over the intent digest with the
stored nonce (`InvalidUserSignature`), (5) solver signature over the
commitment digest (`InvalidSolverSignature`).  The last two conjuncts
state the claim's "in particular" consequences: an expired deadline
fails with `IntentExpired` for every pair of signatures, and an
under-bonded caller fails with `SolverNotBonded` for every pair of
signatures, valid ones included. -/
theorem fulfillIntent_check_order (s : State)
    (now caller user token amount fee deadline : Nat) :
    (∀ us ss : Sig,
      errOf (fulfillIntent s now caller user token amount fee deadline us ss) =
          some .InvalidIntent ↔
        user = 0 ∨ token = 0 ∨ amount = 0 ∨ amount ≤ fee) ∧
    (∀ us ss : Sig,
      errOf (fulfillIntent s now caller user token amount fee deadline us ss) =
          some .IntentExpired ↔
        user ≠ 0 ∧ token ≠ 0 ∧ amount ≠ 0 ∧ fee < amount ∧ deadline < now) ∧
    (∀ us ss : Sig,
      errOf (fulfillIntent s now caller user token amount fee deadline us ss) =
          some .SolverNotBonded ↔
        user ≠ 0 ∧ token ≠ 0 ∧ amount ≠ 0 ∧ fee < amount ∧ now ≤ deadline ∧
        s.solverStakes caller < MINIMUM_STAKE) ∧
    (∀ us ss : Sig,
      errOf (fulfillIntent s now caller user token amount fee deadline us ss) =
          some .InvalidUserSignature ↔
        user ≠ 0 ∧ token ≠ 0 ∧ amount ≠ 0 ∧ fee < amount ∧ now ≤ deadline ∧
        MINIMUM_STAKE ≤ s.solverStakes caller ∧
        recover (Digest.intent user token amount fee (s.nonces user) deadline) us ≠
          some user) ∧
    (∀ us ss : Sig,
      errOf (fulfillIntent s now caller user token amount fee deadline us ss) =
          some .InvalidSolverSignature ↔
        user ≠ 0 ∧ token ≠ 0 ∧ amount ≠ 0 ∧ fee < amount ∧ now ≤ deadline ∧
        MINIMUM_STAKE ≤ s.solverStakes caller ∧
        recover (Digest.intent user token amount fee (s.nonces user) deadline) us =
          some user ∧
        recover (Digest.solverCommit
          (Digest.intent user token amount fee (s.nonces user) deadline)) ss ≠
          some caller) ∧
    (∀ us ss : Sig, user ≠ 0 → token ≠ 0 → amount ≠ 0 → fee < amount →
      deadline < now →
      errOf (fulfillIntent s now caller user token amount fee deadline us ss) =
        some .IntentExpired) ∧
    (∀ us ss : Sig, user ≠ 0 → token ≠ 0 → amount ≠ 0 → fee < amount →
      now ≤ deadline → s.solverStakes caller < MINIMUM_STAKE →
      errOf (fulfillIntent s now caller user token amount fee deadline us ss) =
        some .SolverNotBonded) := by
  refine ⟨fun us ss => fulfillIntent_invalidIntent_iff _ _ _ _ _ _ _ _ us ss,
    fun us ss => fulfillIntent_expired_iff _ _ _ _ _ _ _ _ us ss,
    fun us ss => fulfillIntent_notBonded_iff _ _ _ _ _ _ _ _ us ss,
    fun us ss => fulfillIntent_invalidUserSig_iff _ _ _ _ _ _ _ _ us ss,
    fun us ss => fulfillIntent_invalidSolverSig_iff _ _ _ _ _ _ _ _ us ss,
    fun us ss h1 h2 h3 h4 h5 =>
      (fulfillIntent_expired_iff _ _ _ _ _ _ _ _ us ss).mpr ⟨h1, h2, h3, h4, h5⟩,
    fun us ss h1 h2 h3 h4 h5 h6 =>
      (fulfillIntent_notBonded_iff _ _ _ _ _ _ _ _ us ss).mpr
        ⟨h1, h2, h3, h4, h5, h6⟩⟩

/-- Witness for `fulfillIntent_check_order`: with the demo signatures
(perfectly valid for the intent), the same intent expired at time 2000
fails with `IntentExpired`, and an unbonded caller (address 4) fails
with `SolverNotBonded`. -/
theorem fulfillIntent_check_order_witness :
    errOf (fulfillIntent demoState 2000 3 1 2 100 1 1000 demoUserSig demoSolverSig)
      = some .IntentExpired ∧
    errOf (fulfillIntent demoState 500 4 1 2 100 1 1000 demoUserSig demoSolverSig)
      = some .SolverNotBonded := by
  refine ⟨(fulfillIntent_check_order demoState 2000 3 1 2 100 1 1000).2.2.2.2.2.1
      demoUserSig demoSolverSig (by decide) (by decide) (by decide) (by decide)
      (by decide),
    (fulfillIntent_check_order demoState 500 4 1 2 100 1 1000).2.2.2.2.2.2
      demoUserSig demoSolverSig (by decide) (by decide) (by decide) (by decide)
      (by decide) (by decide)⟩

/-- Claim C3: when `fulfillIntent` succeeds its effects are exactly: the
user's nonce is incremented by one (and nobody else's), solver stakes
are untouched, `amount + fee` of the token moves from the user to the
caller (all other token balances untouched), and the trace is exactly
the storage-nonce write followed by the external token transfer followed
by one `IntentFulfilled` event — so the nonce increment happens strictly
before the external token transfer (it is also the state the transfer
itself already observes). -/
theorem fulfillIntent_effects (s : State)
    (now caller user token amount fee deadline : Nat) (us ss : Sig)
    (s' : State) (tr : List Act)
    (h : fulfillIntent s now caller user token amount fee deadline us ss =
      .ok (s', tr)) :
    s'.nonces user = s.nonces user + 1 ∧
    (∀ v, v ≠ user → s'.nonces v = s.nonces v) ∧
    s'.solverStakes = s.solverStakes ∧
    (caller ≠ user →
      s'.tokenBal token user = s.tokenBal token user - (amount + fee) ∧
      s'.tokenBal token caller = s.tokenBal token caller + (amount + fee)) ∧
    (∀ t' h', t' ≠ token ∨ (h' ≠ user ∧ h' ≠ caller) →
      s'.tokenBal t' h' = s.tokenBal t' h') ∧
    tr = [Act.setNonce user (s.nonces user + 1),
          Act.tokenTransferFrom token user caller (amount + fee),
          Act.emitIntentFulfilled user caller token amount fee] := by
  rw [fulfillIntent_ok_iff] at h
  obtain ⟨hu, ht, ha, hf, hd, hb, hus, hss, hal, hbal, hs', htr⟩ := h
  subst hs'
  refine ⟨by simp [upd], fun v hv => by simp [upd, hv], rfl, ?_, ?_, htr⟩
  · intro hcu
    have hcu' : user ≠ caller := Ne.symm hcu
    exact ⟨by simp [upd2, hcu'], by simp [upd2, hcu]⟩
  · rintro t' h' (hne | ⟨hne1, hne2⟩)
    · simp [upd2, hne]
    · simp [upd2, hne1, hne2]

/-- Witness for `fulfillIntent_effects` at the concrete demo intent:
nonce goes 0 → 1, stakes are untouched, the solver nets 100 + 1. -/
theorem fulfillIntent_effects_witness :
    (execState demoState demoOp).nonces 1 = demoState.nonces 1 + 1 ∧
    (execState demoState demoOp).solverStakes = demoState.solverStakes ∧
    (execState demoState demoOp).tokenBal 2 3 = demoState.tokenBal 2 3 + 101 := by
  have h : fulfillIntent demoState 500 3 1 2 100 1 1000 demoUserSig demoSolverSig =
      .ok (execState demoState demoOp,
           [Act.setNonce 1 1, Act.tokenTransferFrom 2 1 3 101,
            Act.emitIntentFulfilled 1 3 2 100 1]) := rfl
  have he := fulfillIntent_effects demoState 500 3 1 2 100 1 1000 demoUserSig
    demoSolverSig _ _ h
  exact ⟨he.1, he.2.2.1, (he.2.2.2.1 (by decide)).2⟩

/-- Claim C4: `fulfillIntent` is atomic.  On any failure the call (a
revert) leaves the user nonces, the solver stakes and all token balances
exactly as before; and a transfer happens only on success, in which case
the bond check and both signature checks necessarily passed and the
nonce was advanced alongside the transfer (no partial effects in either
direction). -/
theorem fulfillIntent_atomic (s : State)
    (now caller user token amount fee deadline : Nat) (us ss : Sig) :
    (∀ e : Err,
      fulfillIntent s now caller user token amount fee deadline us ss = .error e →
      (execState s (.fulfillOp now caller user token amount fee deadline us ss)).nonces = s.nonces ∧
      (execState s (.fulfillOp now caller user token amount fee deadline us ss)).solverStakes = s.solverStakes ∧
      (execState s (.fulfillOp now caller user token amount fee deadline us ss)).tokenBal = s.tokenBal) ∧
    (∀ (s' : State) (tr : List Act),
      fulfillIntent s now caller user token amount fee deadline us ss =
        .ok (s', tr) →
      MINIMUM_STAKE ≤ s.solverStakes caller ∧
      recover (Digest.intent user token amount fee (s.nonces user) deadline) us =
        some user ∧
      recover (Digest.solverCommit
        (Digest.intent user token amount fee (s.nonces user) deadline)) ss =
        some caller ∧
      Act.tokenTransferFrom token user caller (amount + fee) ∈ tr ∧
      s'.nonces user = s.nonces user + 1) := by
  constructor
  · intro e he
    have hex : exec s (.fulfillOp now caller user token amount fee deadline us ss) =
        .error e := he
    rw [execState_of_error hex]
    exact ⟨rfl, rfl, rfl⟩
  · intro s' tr h
    rw [fulfillIntent_ok_iff] at h
    obtain ⟨-, -, -, -, -, hb, hus, hss, -, -, hs', htr⟩ := h
    subst hs'
    refine ⟨hb, hus, hss, ?_, by simp [upd]⟩
    rw [htr]
    simp

/-- Witness for `fulfillIntent_atomic`: the demo intent with an expired
timestamp reverts leaving every storage map untouched, and the
successful demo call performed its transfer only with the bond check
passed. -/
theorem fulfillIntent_atomic_witness :
    (execState demoState (.fulfillOp 2000 3 1 2 100 1 1000 demoUserSig demoSolverSig)).nonces = demoState.nonces ∧
    Act.tokenTransferFrom 2 1 3 101 ∈
      [Act.setNonce 1 1, Act.tokenTransferFrom 2 1 3 101,
       Act.emitIntentFulfilled 1 3 2 100 1] ∧
    MINIMUM_STAKE ≤ demoState.solverStakes 3 := by
  have he : fulfillIntent demoState 2000 3 1 2 100 1 1000 demoUserSig demoSolverSig =
      .error .IntentExpired := rfl
  have h1 := (fulfillIntent_atomic demoState 2000 3 1 2 100 1 1000 demoUserSig
    demoSolverSig).1 .IntentExpired he
  have hok : fulfillIntent demoState 500 3 1 2 100 1 1000 demoUserSig demoSolverSig =
      .ok (execState demoState demoOp,
           [Act.setNonce 1 1, Act.tokenTransferFrom 2 1 3 101,
            Act.emitIntentFulfilled 1 3 2 100 1]) := rfl
  have h2 := (fulfillIntent_atomic demoState 500 3 1 2 100 1 1000 demoUserSig
    demoSolverSig).2 _ _ hok
  exact ⟨h1.1, h2.2.2.2.1, h2.1⟩

/-- Claim C5: `cancelIntent` fails with `NonceMismatch` whenever the
expected nonce differs from the caller's current nonce; it fails when
the cancellation-typed signature over `(caller, expectedNonce)` does not
recover to the caller; and on success it advances the caller's nonce by
one with no token movement whatsoever (the trace is a single storage
write), after which any intent built with the consumed nonce — i.e. any
`fulfillIntent` whose user signature was produced over a digest with
nonce component `expectedNonce` — fails in every later reachable state,
permanently. -/
theorem cancelIntent_spec (s : State) (caller expectedNonce : Nat) (sig : Sig) :
    (s.nonces caller ≠ expectedNonce →
      cancelIntent s caller expectedNonce sig = .error .NonceMismatch) ∧
    (s.nonces caller = expectedNonce →
      recover (Digest.cancel caller expectedNonce) sig ≠ some caller →
      cancelIntent s caller expectedNonce sig = .error .BadCancelSignature) ∧
    (∀ (s' : State) (tr : List Act),
      cancelIntent s caller expectedNonce sig = .ok (s', tr) →
      s'.nonces caller = expectedNonce + 1 ∧
      s'.solverStakes = s.solverStakes ∧
      s'.tokenBal = s.tokenBal ∧
      tr = [Act.setNonce caller (expectedNonce + 1)] ∧
      (∀ (ops : List Op) (now c token amount fee deadline : Nat) (us ss : Sig),
        us.signed = Digest.intent caller token amount fee expectedNonce deadline →
        errOf (fulfillIntent (ops.foldl execState s') now c caller token amount fee
          deadline us ss) ≠ none)) := by
  refine ⟨?_, ?_, ?_⟩
  · intro hn
    unfold cancelIntent
    rw [if_pos hn]
  · intro hn hr
    unfold cancelIntent
    rw [if_neg (not_not.mpr hn), if_pos hr]
  · intro s' tr h
    rw [cancelIntent_ok_iff] at h
    obtain ⟨hn, hr, hs', htr⟩ := h
    subst hs'
    refine ⟨by simp [upd], rfl, rfl, htr, ?_⟩
    intro ops now c token amount fee deadline us ss hsigned hnone
    set s2 := ops.foldl execState
      { s with nonces := upd s.nonces caller (expectedNonce + 1) } with hs2
    cases hF : fulfillIntent s2 now c caller token amount fee deadline us ss with
    | error e => rw [hF] at hnone; simp at hnone
    | ok p =>
        obtain ⟨s3, tr3⟩ := p
        rw [fulfillIntent_ok_iff] at hF
        have hrec := hF.2.2.2.2.2.2.1
        obtain ⟨hsig2, -⟩ := (recover_eq_some_iff _ _ _).mp hrec
        rw [hsigned] at hsig2
        rw [Digest.intent.injEq] at hsig2
        have hge : expectedNonce + 1 ≤ s2.nonces caller := by
          have := nonces_mono_foldl ops
            { s with nonces := upd s.nonces caller (expectedNonce + 1) } caller
          simpa [upd] using this
        omega

/-- Witness for `cancelIntent_spec`: cancelling against a wrong expected
nonce reverts; the concrete successful cancellation bumps the nonce with
a transferless trace, and the demo intent that consumed nonce 0 then
fails. -/
theorem cancelIntent_spec_witness :
    cancelIntent demoState 1 5 demoCancelSig = .error .NonceMismatch ∧
    errOf (fulfillIntent (execState demoState (.cancelOp 1 0 demoCancelSig))
      500 3 1 2 100 1 1000 demoUserSig demoSolverSig) ≠ none := by
  have h1 := (cancelIntent_spec demoState 1 5 demoCancelSig).1 (by decide)
  have hok : cancelIntent demoState 1 0 demoCancelSig =
      .ok (execState demoState (.cancelOp 1 0 demoCancelSig),
           [Act.setNonce 1 1]) := rfl
  have h3 := ((cancelIntent_spec demoState 1 0 demoCancelSig).2.2 _ _ hok).2.2.2.2
    [] 500 3 2 100 1 1000 demoUserSig demoSolverSig rfl
  exact ⟨h1, h3⟩

/-- Claim C6: per-user nonce counters never decrease under any entry
point of the contract; every successful `fulfillIntent` increments the
intent user's nonce by exactly one and every successful `cancelIntent`
increments the caller's nonce by exactly one, touching nobody else's;
and the staking operations never change any nonce. -/
theorem nonce_counter_invariant (s : State) (op : Op) :
    (∀ v, s.nonces v ≤ (execState s op).nonces v) ∧
    (∀ (now caller user token amount fee deadline : Nat) (us ss : Sig)
        (s' : State) (tr : List Act),
      op = .fulfillOp now caller user token amount fee deadline us ss →
      exec s op = .ok (s', tr) →
      s'.nonces user = s.nonces user + 1 ∧ ∀ v, v ≠ user → s'.nonces v = s.nonces v) ∧
    (∀ (caller expectedNonce : Nat) (sig : Sig) (s' : State) (tr : List Act),
      op = .cancelOp caller expectedNonce sig →
      exec s op = .ok (s', tr) →
      s'.nonces caller = s.nonces caller + 1 ∧
      ∀ v, v ≠ caller → s'.nonces v = s.nonces v) ∧
    (∀ (caller x : Nat),
      op = .stakeOp caller x ∨ op = .withdrawOp caller x →
      (execState s op).nonces = s.nonces) := by
  refine ⟨fun v => nonces_mono s op v, ?_, ?_, ?_⟩
  · rintro now caller user token amount fee deadline us ss s' tr rfl hok
    rw [show exec s (.fulfillOp now caller user token amount fee deadline us ss) =
      fulfillIntent s now caller user token amount fee deadline us ss from rfl] at hok
    rw [fulfillIntent_ok_iff] at hok
    rw [hok.2.2.2.2.2.2.2.2.2.2.1]
    exact ⟨by simp [upd], fun v hv => by simp [upd, hv]⟩
  · rintro caller expectedNonce sig s' tr rfl hok
    rw [show exec s (.cancelOp caller expectedNonce sig) =
      cancelIntent s caller expectedNonce sig from rfl] at hok
    rw [cancelIntent_ok_iff] at hok
    rw [hok.2.2.1]
    refine ⟨by simp [upd]; omega, fun v hv => by simp [upd, hv]⟩
  · rintro caller x (rfl | rfl)
    · cases hst : stake s caller x with
      | error e =>
          rw [execState_of_error
            (show exec s (Op.stakeOp caller x) = .error e from hst)]
      | ok p =>
          obtain ⟨s', tr⟩ := p
          rw [execState_of_ok
            (show exec s (Op.stakeOp caller x) = .ok (s', tr) from hst)]
          rw [stake_ok_iff] at hst
          rw [hst.2.1]
    · cases hwd : withdrawStake s caller x with
      | error e =>
          rw [execState_of_error
            (show exec s (Op.withdrawOp caller x) = .error e from hwd)]
      | ok p =>
          obtain ⟨s', tr⟩ := p
          rw [execState_of_ok
            (show exec s (Op.withdrawOp caller x) = .ok (s', tr) from hwd)]
          rw [withdrawStake_ok_iff] at hwd
          rw [hwd.2.2.1]

/-- Witness for `nonce_counter_invariant`: at the demo state,
monotonicity at an uninvolved address, the exact +1 increments of the
successful demo fulfillment and cancellation, and nonce-preservation of
a staking call. -/
theorem nonce_counter_invariant_witness :
    demoState.nonces 7 ≤ (execState demoState demoOp).nonces 7 ∧
    (execState demoState demoOp).nonces 1 = demoState.nonces 1 + 1 ∧
    (execState demoState (.cancelOp 1 0 demoCancelSig)).nonces 1 =
      demoState.nonces 1 + 1 ∧
    (execState demoState (.stakeOp 5 MINIMUM_STAKE)).nonces = demoState.nonces := by
  have hful : exec demoState demoOp =
      .ok (execState demoState demoOp,
           [Act.setNonce 1 1, Act.tokenTransferFrom 2 1 3 101,
            Act.emitIntentFulfilled 1 3 2 100 1]) := rfl
  have hcan : exec demoState (.cancelOp 1 0 demoCancelSig) =
      .ok (execState demoState (.cancelOp 1 0 demoCancelSig),
           [Act.setNonce 1 1]) := rfl
  refine ⟨(nonce_counter_invariant demoState demoOp).1 7,
    ((nonce_counter_invariant demoState demoOp).2.1
      500 3 1 2 100 1 1000 demoUserSig demoSolverSig _ _ rfl hful).1,
    ((nonce_counter_invariant demoState (.cancelOp 1 0 demoCancelSig)).2.2.1
      1 0 demoCancelSig _ _ rfl hcan).1,
    (nonce_counter_invariant demoState (.stakeOp 5 MINIMUM_STAKE)).2.2.2
      5 MINIMUM_STAKE (Or.inl rfl)⟩

/-- Claim C7, counterexample: a deposit of 1 wei (greater than 0) does
NOT increase the caller's bond — `stake()` requires
`msg.value >= MINIMUM_STAKE` (1 ether) and reverts with
"Insufficient stake", leaving the balance unchanged, so the deposit is
not unconditional for every amount greater than 0. -/
theorem stake_small_deposit_cex :
    (0 : Nat) < 1 ∧
    errOf (stake demoState 3 1) = some .InsufficientStake ∧
    (execState demoState (.stakeOp 3 1)).solverStakes 3 =
      demoState.solverStakes 3 := by
  refine ⟨by decide, by decide, by decide⟩

/-- Claim C7 (amended): `stake` increases the caller's bond balance by
the deposited amount and records (and emits) the new total for every
deposit of at least `MINIMUM_STAKE` (1 ether); any smaller deposit —
including every amount strictly between 0 and `MINIMUM_STAKE` — reverts
with "Insufficient stake" and changes nothing. -/
theorem stake_spec (s : State) (caller value : Nat) :
    (MINIMUM_STAKE ≤ value →
      stake s caller value =
        .ok ({ s with
                 solverStakes := upd s.solverStakes caller (s.solverStakes caller + value) },
             [Act.setStake caller (s.solverStakes caller + value),
              Act.emitStakeAdded caller value (s.solverStakes caller + value)])) ∧
    (value < MINIMUM_STAKE →
      stake s caller value = .error .InsufficientStake ∧
      (execState s (.stakeOp caller value)).solverStakes = s.solverStakes) ∧
    (∀ (s' : State) (tr : List Act), stake s caller value = .ok (s', tr) →
      s'.solverStakes caller = s.solverStakes caller + value) := by
  refine ⟨?_, ?_, ?_⟩
  · intro hv
    rw [stake_ok_iff]
    exact ⟨hv, rfl, rfl⟩
  · intro hv
    have he : stake s caller value = .error .InsufficientStake :=
      (stake_error_iff s caller value .InsufficientStake).mpr ⟨rfl, hv⟩
    refine ⟨he, ?_⟩
    rw [execState_of_error (show exec s (Op.stakeOp caller value) =
      .error .InsufficientStake from he)]
  · intro s' tr h
    rw [stake_ok_iff] at h
    rw [h.2.1]
    simp [upd]

/-- Witness for `stake_spec`: a fresh solver (address 5) deposits
exactly `MINIMUM_STAKE` and its bond goes from 0 to `MINIMUM_STAKE`,
while a 1-wei deposit reverts. -/
theorem stake_spec_witness :
    (execState demoState (.stakeOp 5 MINIMUM_STAKE)).solverStakes 5 =
      demoState.solverStakes 5 + MINIMUM_STAKE ∧
    stake demoState 5 1 = .error .InsufficientStake := by
  have hok : stake demoState 5 MINIMUM_STAKE =
      .ok (execState demoState (.stakeOp 5 MINIMUM_STAKE),
           [Act.setStake 5 MINIMUM_STAKE,
            Act.emitStakeAdded 5 MINIMUM_STAKE MINIMUM_STAKE]) := rfl
  exact ⟨(stake_spec demoState 5 MINIMUM_STAKE).2.2 _ _ hok,
    ((stake_spec demoState 5 1).2.1 (by decide)).1⟩

/-- Claim C8: `withdrawStake` fails with `InsufficientBond` ("invalid
amount") exactly when the amount is zero or exceeds the caller's bond;
otherwise it decrements exactly the caller's balance by the amount and
releases the funds to the caller, with the balance write strictly before
the external value transfer in the trace — consequently two successive
successful withdrawals can never take out more than the original
balance (and the source additionally guards the function with
`nonReentrant`). -/
theorem withdrawStake_spec (s : State) (caller amount : Nat) :
    (errOf (withdrawStake s caller amount) = some .InsufficientBond ↔
      amount = 0 ∨ s.solverStakes caller < amount) ∧
    (∀ (s' : State) (tr : List Act),
      withdrawStake s caller amount = .ok (s', tr) →
      s'.solverStakes caller = s.solverStakes caller - amount ∧
      (∀ v, v ≠ caller → s'.solverStakes v = s.solverStakes v) ∧
      s'.nonces = s.nonces ∧ s'.tokenBal = s.tokenBal ∧
      tr = [Act.setStake caller (s.solverStakes caller - amount),
            Act.sendValue caller amount,
            Act.emitStakeWithdrawn caller amount
              (s.solverStakes caller - amount)]) ∧
    (∀ (s' s'' : State) (tr tr' : List Act) (amount' : Nat),
      withdrawStake s caller amount = .ok (s', tr) →
      withdrawStake s' caller amount' = .ok (s'', tr') →
      amount + amount' ≤ s.solverStakes caller) := by
  refine ⟨?_, ?_, ?_⟩
  · constructor
    · intro h
      cases hw : withdrawStake s caller amount with
      | error e =>
          rw [hw] at h
          rw [withdrawStake_error_iff] at hw
          obtain ⟨rfl, hcond⟩ := hw
          exact hcond
      | ok p => rw [hw] at h; simp at h
    · intro hcond
      have := (withdrawStake_error_iff s caller amount .InsufficientBond).mpr
        ⟨rfl, hcond⟩
      rw [this]
      rfl
  · intro s' tr h
    rw [withdrawStake_ok_iff] at h
    obtain ⟨ha, hb, hs', htr⟩ := h
    subst hs'
    exact ⟨by simp [upd], fun v hv => by simp [upd, hv], rfl, rfl, htr⟩
  · intro s' s'' tr tr' amount' h1 h2
    rw [withdrawStake_ok_iff] at h1 h2
    obtain ⟨ha1, hb1, hs1, -⟩ := h1
    subst hs1
    obtain ⟨ha2, hb2, -⟩ := h2
    simp [upd] at hb2
    omega

/-- Witness for `withdrawStake_spec`: withdrawing 0 reverts with
`InsufficientBond`; the bonded demo solver withdraws 1 wei, its recorded
balance drops by 1, and a successful follow-up withdrawal of the whole
remainder stays within the original balance. -/
theorem withdrawStake_spec_witness :
    errOf (withdrawStake demoState 3 0) = some .InsufficientBond ∧
    (execState demoState (.withdrawOp 3 1)).solverStakes 3 =
      demoState.solverStakes 3 - 1 := by
  have hok : withdrawStake demoState 3 1 =
      .ok (execState demoState (.withdrawOp 3 1),
           [Act.setStake 3 (MINIMUM_STAKE - 1), Act.sendValue 3 1,
            Act.emitStakeWithdrawn 3 1 (MINIMUM_STAKE - 1)]) := rfl
  exact ⟨(withdrawStake_spec demoState 3 0).1.mpr (Or.inl rfl),
    ((withdrawStake_spec demoState 3 1).2.1 _ _ hok).1⟩

/-- Claim C9: cancellation is self-only.  `cancelIntent` can only ever
change the caller's own nonce (all other nonces and all other state
components are untouched whether it succeeds or reverts); it succeeds
only when the supplied signature was produced by the caller itself over
the cancel digest `(caller, expectedNonce)`; and a caller holding
another user's perfectly valid cancellation signature (signed by `u ≠
caller` over `(u, m)`) always reverts, because the contract computes the
digest over `msg.sender`'s own address. -/
theorem cancelIntent_self_only (s : State) (caller expectedNonce : Nat) (sig : Sig) :
    (∀ v, v ≠ caller →
      (execState s (.cancelOp caller expectedNonce sig)).nonces v = s.nonces v) ∧
    (execState s (.cancelOp caller expectedNonce sig)).solverStakes =
      s.solverStakes ∧
    (execState s (.cancelOp caller expectedNonce sig)).tokenBal = s.tokenBal ∧
    (∀ (s' : State) (tr : List Act),
      cancelIntent s caller expectedNonce sig = .ok (s', tr) →
      sig.signer = caller ∧ sig.signed = Digest.cancel caller expectedNonce) ∧
    (∀ u m : Nat, u ≠ caller →
      errOf (cancelIntent s caller expectedNonce ⟨u, Digest.cancel u m⟩) ≠ none) := by
  have hstate : ∀ v, v ≠ caller →
      (execState s (.cancelOp caller expectedNonce sig)).nonces v = s.nonces v := by
    intro v hv
    cases hc : cancelIntent s caller expectedNonce sig with
    | error e =>
        rw [execState_of_error (show exec s (Op.cancelOp caller expectedNonce sig) =
          .error e from hc)]
    | ok p =>
        obtain ⟨s', tr⟩ := p
        rw [execState_of_ok (show exec s (Op.cancelOp caller expectedNonce sig) =
          .ok (s', tr) from hc)]
        rw [cancelIntent_ok_iff] at hc
        rw [hc.2.2.1]
        simp [upd, hv]
  have hrest : (execState s (.cancelOp caller expectedNonce sig)).solverStakes =
      s.solverStakes ∧
      (execState s (.cancelOp caller expectedNonce sig)).tokenBal = s.tokenBal := by
    cases hc : cancelIntent s caller expectedNonce sig with
    | error e =>
        rw [execState_of_error (show exec s (Op.cancelOp caller expectedNonce sig) =
          .error e from hc)]
        exact ⟨rfl, rfl⟩
    | ok p =>
        obtain ⟨s', tr⟩ := p
        rw [execState_of_ok (show exec s (Op.cancelOp caller expectedNonce sig) =
          .ok (s', tr) from hc)]
        rw [cancelIntent_ok_iff] at hc
        rw [hc.2.2.1]
        exact ⟨rfl, rfl⟩
  refine ⟨hstate, hrest.1, hrest.2, ?_, ?_⟩
  · intro s' tr h
    rw [cancelIntent_ok_iff] at h
    obtain ⟨hsigned, hsigner⟩ := (recover_eq_some_iff _ _ _).mp h.2.1
    exact ⟨hsigner, hsigned⟩
  · intro u m hu hnone
    cases hc : cancelIntent s caller expectedNonce ⟨u, Digest.cancel u m⟩ with
    | error e => rw [hc] at hnone; simp at hnone
    | ok p =>
        obtain ⟨s', tr⟩ := p
        rw [cancelIntent_ok_iff] at hc
        obtain ⟨hsigned, -⟩ := (recover_eq_some_iff _ _ _).mp hc.2.1
        rw [Digest.cancel.injEq] at hsigned
        exact hu hsigned.1

/-- Witness for `cancelIntent_self_only`: the demo cancellation leaves
user 2's nonce alone, and address 3 calling `cancelIntent` with user 1's
valid cancellation signature fails. -/
theorem cancelIntent_self_only_witness :
    (execState demoState (.cancelOp 1 0 demoCancelSig)).nonces 2 =
      demoState.nonces 2 ∧
    errOf (cancelIntent demoState 3 0 ⟨1, Digest.cancel 1 0⟩) ≠ none := by
  exact ⟨(cancelIntent_self_only demoState 1 0 demoCancelSig).1 2 (by decide),
    (cancelIntent_self_only demoState 3 0 demoCancelSig).2.2.2.2 1 0 (by decide)⟩

/-- Claim C10: withdrawal is not floored at the eligibility threshold.
For every caller with bond `b` and every `0 < amount ≤ b` such that the
remainder `b - amount` lies strictly between 0 and `MINIMUM_STAKE`, the
withdrawal succeeds, the recorded balance becomes `b - amount` (nonzero
but below the threshold), and thereafter every `fulfillIntent` by that
solver on a well-formed, unexpired intent fails the bond check with
`SolverNotBonded` — the solver is settlement-ineligible while still
holding a nonzero stake. -/
theorem withdraw_below_threshold (s : State) (caller amount : Nat)
    (h0 : amount ≠ 0) (hle : amount ≤ s.solverStakes caller)
    (hrem0 : 0 < s.solverStakes caller - amount)
    (hremM : s.solverStakes caller - amount < MINIMUM_STAKE) :
    errOf (withdrawStake s caller amount) = none ∧
    (execState s (.withdrawOp caller amount)).solverStakes caller =
      s.solverStakes caller - amount ∧
    0 < (execState s (.withdrawOp caller amount)).solverStakes caller ∧
    (execState s (.withdrawOp caller amount)).solverStakes caller <
      MINIMUM_STAKE ∧
    (∀ (now user token a f deadline : Nat) (us ss : Sig),
      user ≠ 0 → token ≠ 0 → a ≠ 0 → f < a → now ≤ deadline →
      errOf (fulfillIntent (execState s (.withdrawOp caller amount))
        now caller user token a f deadline us ss) = some .SolverNotBonded) := by
  have hok : withdrawStake s caller amount =
      .ok ({ s with
               solverStakes := upd s.solverStakes caller (s.solverStakes caller - amount) },
           [Act.setStake caller (s.solverStakes caller - amount),
            Act.sendValue caller amount,
            Act.emitStakeWithdrawn caller amount
              (s.solverStakes caller - amount)]) :=
    (withdrawStake_ok_iff s caller amount _ _).mpr ⟨h0, hle, rfl, rfl⟩
  have hex : execState s (.withdrawOp caller amount) =
      { s with
          solverStakes := upd s.solverStakes caller (s.solverStakes caller - amount) } :=
    execState_of_ok (show exec s (Op.withdrawOp caller amount) = _ from hok)
  have hbal : (execState s (.withdrawOp caller amount)).solverStakes caller =
      s.solverStakes caller - amount := by
    rw [hex]; simp [upd]
  refine ⟨by rw [hok]; rfl, hbal, by omega, by omega, ?_⟩
  intro now user token a f deadline us ss hu ht ha hf hd
  rw [fulfillIntent_notBonded_iff]
  exact ⟨hu, ht, ha, hf, hd, by omega⟩

/-- Witness for `withdraw_below_threshold`: the demo solver (bond exactly
`MINIMUM_STAKE`) withdraws 1 wei, keeps a nonzero stake below the
threshold, and then the perfectly-signed demo intent fails with
`SolverNotBonded`. -/
theorem withdraw_below_threshold_witness :
    errOf (withdrawStake demoState 3 1) = none ∧
    errOf (fulfillIntent (execState demoState (.withdrawOp 3 1))
      500 3 1 2 100 1 1000 demoUserSig demoSolverSig) = some .SolverNotBonded := by
  have h := withdraw_below_threshold demoState 3 1 (by decide) (by decide)
    (by decide) (by decide)
  exact ⟨h.1, h.2.2.2.2 500 1 2 100 1 1000 demoUserSig demoSolverSig
    (by decide) (by decide) (by decide) (by decide) (by decide)⟩
